import Mathlib

/-!
Verification of the Leo chat application (src/App.tsx, src/types.ts).

The embedding below translates the data model of `src/types.ts` and the
three stateful operations of `src/App.tsx` — `handleSend` (lines 138-187),
`toggleLive` (lines 54-136) and the live-audio `onmessage` handler
(lines 88-121) — into pure Lean functions.  External effects
(`Date.now()`, `generateLeoImage`, the chat stream, microphone access,
audio decode completion, the output audio clock) are passed in as explicit
environment parameters, so that every run of the code corresponds to a
choice of those parameters.
-/

namespace LeoApp

/-! ## Data model: `src/types.ts` -/

/-- `Message.role` in `src/types.ts`: the literal union `'user' | 'leo'`. -/
inductive Role where
  | user
  | leo
deriving DecidableEq, Repr

/-- `Emotion` in `src/types.ts`. -/
inductive Emotion where
  | neutral
  | happy
  | concerned
  | thinking
deriving DecidableEq, Repr

/-- A source citation, as in the optional `sources` field of `Message`. -/
structure SourceRef where
  uri : String
  title : String
deriving DecidableEq, Repr

/-- The `Message` interface of `src/types.ts`.  Optional fields become
`Option`, absent by default exactly as in the object literals of
`App.tsx`. -/
structure Message where
  id : String
  role : Role
  text : String
  timestamp : Nat
  sources : Option (List SourceRef) := none
  isSearching : Option Bool := none
  imageUrl : Option String := none
deriving DecidableEq, Repr

/-- The `LeoState` interface of `src/types.ts`. -/
structure LeoState where
  emotion : Emotion
  isSpeaking : Bool
  isThinking : Bool
  isLive : Bool
deriving DecidableEq, Repr

/-- The pieces of React state of `App.tsx` that `handleSend` reads or
writes: `messages`, `input` and `leoState`. -/
structure AppState where
  messages : List Message
  input : String
  leoState : LeoState
deriving DecidableEq, Repr

/-! ## The image-intent test: `App.tsx` line 149

`/generate|visualize|create|show me/i.test(textToSend)` is a
case-insensitive search for any of the four literal keywords anywhere in
the string. -/

/-- Substring containment on character lists: `pat` occurs (contiguously)
somewhere in `s`. -/
def charsContain (pat : List Char) : List Char → Bool
  | [] => pat.isEmpty
  | c :: rest => pat.isPrefixOf (c :: rest) || charsContain pat rest

/-- JavaScript `String.prototype.toLowerCase` restricted to the ASCII
range, which is all the keyword patterns use. -/
def jsToLower (s : String) : String :=
  ⟨s.data.map Char.toLower⟩

/-- Drop leading whitespace characters from a character list. -/
def dropLeadingWS : List Char → List Char
  | [] => []
  | c :: cs => if c.isWhitespace then dropLeadingWS cs else c :: cs

/-- JavaScript `String.prototype.trim`: drop whitespace from both ends. -/
def jsTrim (s : String) : String :=
  ⟨((dropLeadingWS ((dropLeadingWS s.data).reverse)).reverse)⟩

/-- Case-insensitive substring containment, modelling a `/pat/i` regex
test for a literal pattern `pat`. -/
def containsCI (s pat : String) : Bool :=
  charsContain (jsToLower pat).data (jsToLower s).data

/-- `App.tsx` line 149: `const isImageReq = /generate|visualize|create|show me/i.test(textToSend)`. -/
def isImageReq (s : String) : Bool :=
  containsCI s "generate" || containsCI s "visualize" || containsCI s "create" || containsCI s "show me"

/-! ## `handleSend`: `App.tsx` lines 138-187 -/

/-- The outcome of `await generateLeoImage(textToSend)` (`App.tsx` line
152): a truthy url string, a falsy result (the `if (imageUrl)` test at
line 153 fails), or a thrown error (caught and logged at line 164). -/
inductive ImageOutcome where
  | url (u : String)
  | empty
  | err
deriving DecidableEq, Repr

/-- The environment of one `handleSend` run: what the external service
calls return.  `chunks` are the fragments the chat stream delivers before
it either ends normally (`streamFails = false`) or throws
(`streamFails = true`, caught at line 184). -/
structure ChatEnv where
  imageOutcome : ImageOutcome
  chunks : List String
  streamFails : Bool
deriving DecidableEq, Repr

/-- One entry of the role-tagged history built at `App.tsx` lines 171-174:
`{ role: m.role === 'leo' ? 'model' : 'user', parts: [{ text: m.text }] }`. -/
structure HistoryEntry where
  role : String
  parts : List String
deriving DecidableEq, Repr

/-- `App.tsx` lines 171-174, the per-message mapping. -/
def toHistoryEntry (m : Message) : HistoryEntry :=
  { role := if m.role = Role.leo then "model" else "user", parts := [m.text] }

/-- `messages.slice(-6).map(...)` (`App.tsx` line 171): the last six (or
fewer) messages of the list as captured by the closure, i.e. the list as
it stood when `handleSend` started. -/
def historyOf (msgs : List Message) : List HistoryEntry :=
  (msgs.drop (msgs.length - 6)).map toHistoryEntry

/-- `App.tsx` line 139: `const textToSend = textOverride || input` — the
override is used when present and truthy (non-empty), else the current
input. -/
def resolveText (textOverride : Option String) (inp : String) : String :=
  match textOverride with
  | some t => if t = "" then inp else t
  | none => inp

/-- The fixed caption of an image reply, `App.tsx` line 157. -/
def imageCaption : String := "Boom. Here\x27s that visualization you wanted. Absolute fire."

/-- One iteration of the streaming loop body (`App.tsx` lines 180-183)
after `fullText += chunk` has produced `fullText`:
`prev.map(m => m.id === leoId ? { ...m, text: fullText } : m)`. -/
def applyChunk (leoId fullText : String) (msgs : List Message) : List Message :=
  msgs.map fun m => if m.id = leoId then { m with text := fullText } else m

/-- The whole `for await` loop (`App.tsx` lines 180-183): fold the
delivered chunks over the message list, accumulating `fullText` from
`acc` (initially the empty string of line 177). -/
def applyChunks (leoId : String) (msgs : List Message) (acc : String) : List String → List Message
  | [] => msgs
  | c :: cs => applyChunks leoId (applyChunk leoId (acc ++ c) msgs) (acc ++ c) cs

/-- The result of one `handleSend` run: the final React state, whether
`generateLeoImage` was invoked (line 152 reached), and the
`(prompt, history)` argument of `chatWithLeoStream` when it was invoked
(line 176 reached). -/
structure SendResult where
  state : AppState
  imageRequested : Bool
  chatRequest : Option (String × List HistoryEntry)
deriving DecidableEq, Repr

/-- `App.tsx` lines 167-186: the streaming-text path, entered when there
is no image intent or image generation failed/returned nothing.  `clock`
gives the successive values returned by `Date.now()` during this run
(call 0 and 1 made the user message at line 143; calls 2 and 3 are
line 167's `leoId` and line 168's timestamp).  `msgs1` is the list after
the user message was appended, `ls1` the state after `isThinking := true`. -/
def textPath (st : AppState) (textToSend : String) (msgs1 : List Message) (ls1 : LeoState)
    (clock : Nat → Nat) (env : ChatEnv) (imgReq : Bool) : SendResult :=
  let leoId := toString (clock 2)
  let msgs2 := msgs1 ++ [{ id := leoId, role := Role.leo, text := "", timestamp := clock 3 }]
  let ls2 : LeoState := { ls1 with isThinking := false, emotion := Emotion.neutral }
  let msgs3 := applyChunks leoId msgs2 "" env.chunks
  let lsFinal := if env.streamFails then { ls2 with isThinking := false, emotion := Emotion.concerned } else ls2
  { state := { messages := msgs3, input := "", leoState := lsFinal },
    imageRequested := imgReq,
    chatRequest := some (textToSend, historyOf st.messages) }

/-- `App.tsx` lines 138-187, `handleSend`.  `clock k` is the value the
`k`-th call of `Date.now()` returns during this run. -/
def handleSend (st : AppState) (textOverride : Option String) (clock : Nat → Nat)
    (env : ChatEnv) : SendResult :=
  let textToSend := resolveText textOverride st.input
  if jsTrim textToSend = "" ∨ st.leoState.isThinking = true then
    { state := st, imageRequested := false, chatRequest := none }
  else
    let userMsg : Message :=
      { id := toString (clock 0), role := Role.user, text := textToSend, timestamp := clock 1 }
    let msgs1 := st.messages ++ [userMsg]
    let ls1 : LeoState := { st.leoState with isThinking := true }
    if isImageReq textToSend then
      match env.imageOutcome with
      | ImageOutcome.url u =>
        { state :=
            { messages := msgs1 ++
                [{ id := toString (clock 2), role := Role.leo, text := imageCaption,
                   timestamp := clock 3, imageUrl := some u }],
              input := "",
              leoState := { ls1 with isThinking := false, emotion := Emotion.happy } },
          imageRequested := true,
          chatRequest := none }
      | ImageOutcome.empty => textPath st textToSend msgs1 ls1 clock env true
      | ImageOutcome.err => textPath st textToSend msgs1 ls1 clock env true
    else
      textPath st textToSend msgs1 ls1 clock env false

/-! ## `toggleLive`: `App.tsx` lines 54-136

Synchronously, `toggleLive` either reloads the page (when already live,
line 56), or requests the microphone inside a `try`/`catch`.  On denial
the `catch` at lines 133-135 only logs; `setLeoState` is called solely
from the session callbacks, which never fire, so the React state is left
untouched and no exception escapes. -/

/-- `navigator.mediaDevices.getUserMedia({ audio: true })` (`App.tsx`
line 64): resolves, or rejects with a permission error. -/
def getUserMedia (micGranted : Bool) : Except String Unit :=
  if micGranted then Except.ok () else Except.error "NotAllowedError"

/-- The observable outcome of one synchronous `toggleLive` run: the
`leoState` afterwards, whether the page was reloaded (line 56), whether a
live connection was requested (line 65 reached), and whether the mic
error was caught and logged (lines 133-135). -/
structure ToggleResult where
  leoState : LeoState
  reloaded : Bool
  sessionRequested : Bool
  micErrorLogged : Bool
deriving DecidableEq, Repr

/-- `App.tsx` lines 54-136, the synchronous part of `toggleLive`.  The
`try`/`catch` around `getUserMedia` is modelled by matching on the
`Except`; returning a `ToggleResult` in both branches is the absence of a
propagated exception. -/
def toggleLive (st : LeoState) (micGranted : Bool) : ToggleResult :=
  if st.isLive then
    { leoState := st, reloaded := true, sessionRequested := false, micErrorLogged := false }
  else
    match getUserMedia micGranted with
    | Except.ok _ =>
      { leoState := st, reloaded := false, sessionRequested := true, micErrorLogged := false }
    | Except.error _ =>
      { leoState := st, reloaded := false, sessionRequested := false, micErrorLogged := true }

/-! ## Live-audio playback scheduling: `App.tsx` lines 88-121

The `onmessage` callback is an `async` function.  For an audio frame it
runs synchronously up to `await decodeAudioBuffer` (line 102) and
resumes later with the synchronous scheduling block (lines 104-120).
An interruption message (lines 90-95) is handled entirely synchronously.
The event loop interleaves these synchronous segments, so a run of the
handler is a sequence of atomic steps:

  * `receive fid dur` — an audio frame (identified by `fid`, of duration
    `dur` seconds) arrives and its decode is started (lines 97-102);
  * `decoded fid now` — the decode of frame `fid` resolves while the
    output clock reads `now`, and lines 104-120 schedule it:
    `nextStartTime := max(nextStartTime, currentTime)`, start the source
    there, `nextStartTime += buffer.duration`, add to `activeSources`;
  * `interrupt` — lines 90-94: stop every active source, clear the set,
    reset `nextStartTimeRef` to 0;
  * `ended fid` — the `onended` callback of frame `fid` (lines 115-120)
    removes it from `activeSources`.

Times are rationals (the code uses the audio clock's seconds). -/

/-- A scheduled playback interval: frame id, scheduled start, scheduled
stop (start plus buffer duration). -/
structure Sched where
  fid : Nat
  startTime : ℚ
  stopTime : ℚ
deriving DecidableEq, Repr

/-- The mutable refs of the playback pipeline: `nextStartTimeRef`
(line 39), `activeSources` (line 40), plus the frames whose decode is in
flight (the continuations suspended at line 102).  `log` is a ghost
field recording every interval ever scheduled; no code reads it. -/
structure AudioSchedState where
  nextStartTime : ℚ
  active : List Sched
  pending : List (Nat × ℚ)
  log : List Sched
deriving DecidableEq, Repr

/-- The state before any message: `nextStartTimeRef.current = 0`, no
active sources, no pending decode. -/
def audioInitState : AudioSchedState :=
  { nextStartTime := 0, active := [], pending := [], log := [] }

/-- One atomic step of the `onmessage` event loop (see the section
comment above). -/
inductive AudioEvent where
  | receive (fid : Nat) (dur : ℚ)
  | decoded (fid : Nat) (now : ℚ)
  | interrupt
  | ended (fid : Nat)
deriving DecidableEq, Repr

/-- The step function of the playback pipeline. -/
def audioStep (s : AudioSchedState) : AudioEvent → AudioSchedState
  | AudioEvent.receive fid dur => { s with pending := s.pending ++ [(fid, dur)] }
  | AudioEvent.decoded fid now =>
    match s.pending.find? (fun p => p.1 == fid) with
    | none => s
    | some p =>
      let start := max s.nextStartTime now
      let sch : Sched := { fid := fid, startTime := start, stopTime := start + p.2 }
      { nextStartTime := start + p.2,
        active := s.active ++ [sch],
        pending := s.pending.filter (fun q => q.1 != fid),
        log := s.log ++ [sch] }
  | AudioEvent.interrupt => { s with active := [], nextStartTime := 0 }
  | AudioEvent.ended fid => { s with active := s.active.filter (fun a => a.fid != fid) }

/-- Validity of an event: audio buffers have nonnegative duration. -/
def evOk : AudioEvent → Prop
  | AudioEvent.receive _ dur => 0 ≤ dur
  | _ => True

instance (e : AudioEvent) : Decidable (evOk e) := by
  cases e <;> simp only [evOk] <;> infer_instance

/-- Two scheduled intervals in this order do not overlap: the first stops
no later than the second starts. -/
def noOverlap (a b : Sched) : Prop := a.stopTime ≤ b.startTime

/-- The scheduling invariant: every active interval stops by
`nextStartTime`, active intervals are pairwise non-overlapping in order,
and pending durations are nonnegative. -/
def goodAudio (s : AudioSchedState) : Prop :=
  (∀ a ∈ s.active, a.stopTime ≤ s.nextStartTime) ∧
  s.active.Pairwise noOverlap ∧
  (∀ p ∈ s.pending, 0 ≤ p.2)

/-! ## Lemmas about the streaming loop -/

theorem applyChunk_applyChunk (leoId t t' : String) (msgs : List Message) :
    applyChunk leoId t (applyChunk leoId t' msgs) = applyChunk leoId t msgs := by
  simp only [applyChunk, List.map_map]
  congr 1
  funext m
  by_cases h : m.id = leoId <;> simp [Function.comp, h]

/-- Running the loop on `c :: cs` updates every message whose id is
`leoId` to the full accumulated text, and touches nothing else. -/
theorem applyChunks_cons_eq (leoId : String) :
    ∀ (cs : List String) (acc : String) (msgs : List Message) (c : String),
      applyChunks leoId msgs acc (c :: cs)
        = msgs.map (fun m =>
            if m.id = leoId then
              { m with text := (c :: cs).foldl (fun r s => r ++ s) acc }
            else m) := by
  intro cs
  induction cs with
  | nil =>
    intro acc msgs c
    simp [applyChunks, applyChunk, List.foldl]
  | cons c' cs' ih =>
    intro acc msgs c
    show applyChunks leoId (applyChunk leoId (acc ++ c) msgs) (acc ++ c) (c' :: cs') = _
    rw [ih]
    simp only [applyChunk, List.map_map, List.foldl]
    congr 1
    funext m
    by_cases h : m.id = leoId <;> simp [Function.comp, h]

/-- The streaming loop never changes a message's role. -/
theorem applyChunks_map_role (leoId : String) (msgs : List Message) (acc : String)
    (cs : List String) :
    (applyChunks leoId msgs acc cs).map Message.role = msgs.map Message.role := by
  cases cs with
  | nil => rfl
  | cons c cs' =>
    rw [applyChunks_cons_eq]
    simp only [List.map_map]
    congr 1
    funext m
    by_cases h : m.id = leoId <;> simp [Function.comp, h]

/-- The last message produced by the streaming path is the placeholder
of line 168, its text now the concatenation of the delivered chunks in
arrival order. -/
theorem textPath_getLast (st : AppState) (textToSend : String) (msgs1 : List Message)
    (ls1 : LeoState) (clock : Nat → Nat) (env : ChatEnv) (imgReq : Bool) :
    ((textPath st textToSend msgs1 ls1 clock env imgReq).state.messages).getLast?
      = some { id := toString (clock 2), role := Role.leo, text := String.join env.chunks,
               timestamp := clock 3 } := by
  show (applyChunks (toString (clock 2)) (msgs1 ++ [_]) "" env.chunks).getLast? = _
  cases hcs : env.chunks with
  | nil => simp [applyChunks, String.join]
  | cons c cs' =>
    rw [applyChunks_cons_eq]
    simp only [List.map_append, List.map_cons, List.map_nil]
    rw [List.getLast?_concat]
    simp [String.join]

/-- The streaming path appends exactly the placeholder after `msgs1` as
far as roles are concerned. -/
theorem textPath_map_role (st : AppState) (textToSend : String) (msgs1 : List Message)
    (ls1 : LeoState) (clock : Nat → Nat) (env : ChatEnv) (imgReq : Bool) :
    (textPath st textToSend msgs1 ls1 clock env imgReq).state.messages.map Message.role
      = msgs1.map Message.role ++ [Role.leo] := by
  show (applyChunks (toString (clock 2)) (msgs1 ++ [_]) "" env.chunks).map Message.role = _
  rw [applyChunks_map_role]
  simp

/-! ## Lemmas about playback scheduling -/

/-- The scheduling invariant is preserved by every valid step. -/
theorem goodAudio_step (s : AudioSchedState) (e : AudioEvent) (hs : goodAudio s)
    (he : evOk e) : goodAudio (audioStep s e) := by
  obtain ⟨hend, hpair, hpend⟩ := hs
  cases e with
  | receive fid dur =>
    refine ⟨hend, hpair, ?_⟩
    intro p hp
    rcases List.mem_append.mp hp with h | h
    · exact hpend p h
    · simp only [List.mem_singleton] at h
      subst h
      exact he
  | decoded fid now =>
    show goodAudio (match s.pending.find? (fun p => p.1 == fid) with
      | none => s
      | some p => _)
    cases hf : s.pending.find? (fun p => p.1 == fid) with
    | none => exact ⟨hend, hpair, hpend⟩
    | some p =>
      have hdur : 0 ≤ p.2 := hpend p (List.mem_of_find?_eq_some hf)
      have hstart : s.nextStartTime ≤ max s.nextStartTime now := le_max_left _ _
      refine ⟨?_, ?_, ?_⟩
      · intro a ha
        rcases List.mem_append.mp ha with h | h
        · calc a.stopTime ≤ s.nextStartTime := hend a h
            _ ≤ max s.nextStartTime now := hstart
            _ ≤ max s.nextStartTime now + p.2 := le_add_of_nonneg_right hdur
        · simp only [List.mem_singleton] at h
          subst h
          exact le_refl _
      · rw [List.pairwise_append]
        refine ⟨hpair, List.pairwise_singleton _ _, ?_⟩
        intro a ha b hb
        simp only [List.mem_singleton] at hb
        subst hb
        show a.stopTime ≤ max s.nextStartTime now
        exact le_trans (hend a ha) hstart
      · intro q hq
        exact hpend q (List.mem_of_mem_filter hq)
  | interrupt =>
    refine ⟨?_, List.Pairwise.nil, hpend⟩
    intro a ha
    cases ha
  | ended fid =>
    refine ⟨?_, ?_, hpend⟩
    · intro a ha
      exact hend a (List.mem_of_mem_filter ha)
    · exact hpair.sublist (List.filter_sublist _)

/-- The invariant holds after any valid run from any good state. -/
theorem goodAudio_run (evs : List AudioEvent) :
    ∀ (s : AudioSchedState), goodAudio s → (∀ e ∈ evs, evOk e) →
      goodAudio (evs.foldl audioStep s) := by
  induction evs with
  | nil => intro s hs _; exact hs
  | cons e evs ih =>
    intro s hs hok
    exact ih (audioStep s e) (goodAudio_step s e hs (hok e (List.mem_cons_self e evs)))
      (fun e' he' => hok e' (List.mem_cons_of_mem e he'))

/-- The initial state satisfies the invariant. -/
theorem goodAudio_init : goodAudio audioInitState := by
  refine ⟨?_, List.Pairwise.nil, ?_⟩ <;> intro a ha <;> cases ha

/-- The ghost-log invariant for interruption-free runs: every interval
ever scheduled stops by `nextStartTime`, and the log is pairwise
non-overlapping. -/
def goodLog (s : AudioSchedState) : Prop :=
  (∀ a ∈ s.log, a.stopTime ≤ s.nextStartTime) ∧ s.log.Pairwise noOverlap

/-- Every valid step other than an interruption preserves the log
invariant (given the pending-duration part of `goodAudio`). -/
theorem goodLog_step (s : AudioSchedState) (e : AudioEvent) (hs : goodLog s)
    (hpend : ∀ p ∈ s.pending, 0 ≤ p.2) (he : evOk e) (hnotint : e ≠ AudioEvent.interrupt) :
    goodLog (audioStep s e) := by
  obtain ⟨hend, hpair⟩ := hs
  cases e with
  | receive fid dur => exact ⟨hend, hpair⟩
  | decoded fid now =>
    show goodLog (match s.pending.find? (fun p => p.1 == fid) with
      | none => s
      | some p => _)
    cases hf : s.pending.find? (fun p => p.1 == fid) with
    | none => exact ⟨hend, hpair⟩
    | some p =>
      have hdur : 0 ≤ p.2 := hpend p (List.mem_of_find?_eq_some hf)
      have hstart : s.nextStartTime ≤ max s.nextStartTime now := le_max_left _ _
      refine ⟨?_, ?_⟩
      · intro a ha
        rcases List.mem_append.mp ha with h | h
        · calc a.stopTime ≤ s.nextStartTime := hend a h
            _ ≤ max s.nextStartTime now := hstart
            _ ≤ max s.nextStartTime now + p.2 := le_add_of_nonneg_right hdur
        · simp only [List.mem_singleton] at h
          subst h
          exact le_refl _
      · rw [List.pairwise_append]
        refine ⟨hpair, List.pairwise_singleton _ _, ?_⟩
        intro a ha b hb
        simp only [List.mem_singleton] at hb
        subst hb
        exact le_trans (hend a ha) hstart
  | interrupt => exact absurd rfl hnotint
  | ended fid => exact ⟨hend, hpair⟩

/-- Combined invariant run for interruption-free traces. -/
theorem goodLog_run (evs : List AudioEvent) :
    ∀ (s : AudioSchedState), goodAudio s → goodLog s → (∀ e ∈ evs, evOk e) →
      AudioEvent.interrupt ∉ evs →
      goodLog (evs.foldl audioStep s) := by
  induction evs with
  | nil => intro s _ hl _ _; exact hl
  | cons e evs ih =>
    intro s hs hl hok hni
    have he : evOk e := hok e (List.mem_cons_self e evs)
    refine ih (audioStep s e) (goodAudio_step s e hs he)
      (goodLog_step s e hl hs.2.2 he ?_)
      (fun e' he' => hok e' (List.mem_cons_of_mem e he')) ?_
    · intro hcontra
      exact hni (hcontra ▸ List.mem_cons_self e evs)
    · intro hcontra
      exact hni (List.mem_cons_of_mem e hcontra)

/-- `chatWithLeoStream` is either not called at all, or called with the
submitted text as the prompt and the six-message window over the
pre-submission list as the history. -/
theorem handleSend_chatRequest_eq (st : AppState) (textOverride : Option String)
    (clock : Nat → Nat) (env : ChatEnv) :
    (handleSend st textOverride clock env).chatRequest = none ∨
    (handleSend st textOverride clock env).chatRequest
      = some (resolveText textOverride st.input, historyOf st.messages) := by
  simp only [handleSend]
  split
  · left; rfl
  · split
    · cases env.imageOutcome with
      | url u => left; rfl
      | empty => right; rfl
      | err => right; rfl
    · right; rfl

/-! ## Concrete fixtures used by the witnesses -/

def idleState : LeoState :=
  { emotion := Emotion.neutral, isSpeaking := false, isThinking := false, isLive := false }

def demoMsg : Message := { id := "welcome", role := Role.leo, text := "hey", timestamp := 1 }

def demoState : AppState := { messages := [demoMsg], input := "hi there", leoState := idleState }

def blankState : AppState := { messages := [demoMsg], input := "   ", leoState := idleState }

def imageState : AppState :=
  { messages := [demoMsg], input := "generate a sunset", leoState := idleState }

def demoClock : Nat → Nat := fun k => 100 + k

def demoEnv : ChatEnv :=
  { imageOutcome := ImageOutcome.err, chunks := ["Hel", "lo!"], streamFails := false }

def failEnv : ChatEnv :=
  { imageOutcome := ImageOutcome.err, chunks := ["Hel"], streamFails := true }

/-! ## The claims -/

/-- C1: for every submitted input that is non-blank after trimming,
submitted while `isThinking` is false, `handleSend` appends exactly one
user message followed by exactly one assistant message (image caption or
streaming placeholder) to the message list, in that order: the role
sequence of the final list is the old role sequence extended by
`[user, leo]`. -/
theorem claim_C1 (st : AppState) (textOverride : Option String) (clock : Nat → Nat)
    (env : ChatEnv)
    (h1 : jsTrim (resolveText textOverride st.input) ≠ "")
    (h2 : st.leoState.isThinking = false) :
    (handleSend st textOverride clock env).state.messages.map Message.role
      = st.messages.map Message.role ++ [Role.user, Role.leo] := by
  simp only [handleSend]
  rw [if_neg (by simp [h1, h2])]
  by_cases himg : isImageReq (resolveText textOverride st.input) = true
  · rw [if_pos himg]
    cases env.imageOutcome with
    | url u => simp
    | empty => rw [textPath_map_role]; simp
    | err => rw [textPath_map_role]; simp
  · rw [if_neg himg]
    rw [textPath_map_role]
    simp

theorem claim_C1_witness :
    jsTrim (resolveText none demoState.input) ≠ "" ∧
    demoState.leoState.isThinking = false ∧
    (handleSend demoState none demoClock demoEnv).state.messages.map Message.role
      = demoState.messages.map Message.role ++ [Role.user, Role.leo] :=
  ⟨by decide, rfl, claim_C1 demoState none demoClock demoEnv (by decide) rfl⟩

/-- C5: a blank (whitespace-only) submission, or a submission while a
response is in flight, leaves the whole state — in particular the
message list — unchanged. -/
theorem claim_C5 (st : AppState) (textOverride : Option String) (clock : Nat → Nat)
    (env : ChatEnv)
    (h : jsTrim (resolveText textOverride st.input) = "" ∨ st.leoState.isThinking = true) :
    (handleSend st textOverride clock env).state = st ∧
    (handleSend st textOverride clock env).state.messages = st.messages := by
  simp only [handleSend]
  rw [if_pos h]
  exact ⟨rfl, rfl⟩

theorem claim_C5_witness :
    jsTrim (resolveText none blankState.input) = "" ∧
    (handleSend blankState none demoClock demoEnv).state = blankState :=
  ⟨by decide, (claim_C5 blankState none demoClock demoEnv (Or.inl (by decide))).1⟩

/-- C8: with the live flag off, a denied microphone request is caught at
the call site (`micErrorLogged`), `toggleLive` returns normally with the
state unchanged, and the live flag remains false. -/
theorem claim_C8 (st : LeoState) (h : st.isLive = false) :
    toggleLive st false
      = { leoState := st, reloaded := false, sessionRequested := false,
          micErrorLogged := true } ∧
    (toggleLive st false).leoState.isLive = false := by
  unfold toggleLive getUserMedia
  simp [h]

theorem claim_C8_witness :
    idleState.isLive = false ∧
    toggleLive idleState false
      = { leoState := idleState, reloaded := false, sessionRequested := false,
          micErrorLogged := true } :=
  ⟨rfl, (claim_C8 idleState rfl).1⟩

/-- C10: whenever the streaming chat is invoked, its prompt is exactly
the submitted text, and its history is the six-message window over the
message list as it stood before this submission — so it has at most six
entries, each derived from a pre-existing message, and cannot contain
the just-appended user message or the placeholder. -/
theorem claim_C10 (st : AppState) (textOverride : Option String) (clock : Nat → Nat)
    (env : ChatEnv) (p : String) (hist : List HistoryEntry)
    (h : (handleSend st textOverride clock env).chatRequest = some (p, hist)) :
    p = resolveText textOverride st.input ∧
    hist = historyOf st.messages ∧
    hist.length ≤ 6 ∧
    ∀ e ∈ hist, ∃ m, m ∈ st.messages ∧ e = toHistoryEntry m := by
  have key := handleSend_chatRequest_eq st textOverride clock env
  rcases key with hnone | hsome
  · rw [hnone] at h; cases h
  · rw [hsome] at h
    injection h with h'
    injection h' with hp hh
    subst hp
    subst hh
    refine ⟨rfl, rfl, ?_, ?_⟩
    · simp only [historyOf, List.length_map, List.length_drop]
      omega
    · intro e he
      simp only [historyOf, List.mem_map] at he
      obtain ⟨m, hm, rfl⟩ := he
      exact ⟨m, List.mem_of_mem_drop hm, rfl⟩

theorem claim_C10_witness :
    (handleSend demoState none demoClock demoEnv).chatRequest
      = some ("hi there", [{ role := "model", parts := ["hey"] }]) ∧
    ([{ role := "model", parts := ["hey"] }] : List HistoryEntry).length ≤ 6 :=
  ⟨by decide,
   (claim_C10 demoState none demoClock demoEnv "hi there"
      [{ role := "model", parts := ["hey"] }] (by decide)).2.2.1⟩

/-- C4: on the streaming path (guards passed, image generation not
successful), the in-flight assistant message — the last message of the
final list — ends up with text equal to the concatenation of the
streamed fragments in arrival order. -/
theorem claim_C4 (st : AppState) (textOverride : Option String) (clock : Nat → Nat)
    (env : ChatEnv)
    (h1 : jsTrim (resolveText textOverride st.input) ≠ "")
    (h2 : st.leoState.isThinking = false)
    (h3 : ∀ u, env.imageOutcome ≠ ImageOutcome.url u) :
    ((handleSend st textOverride clock env).state.messages.getLast?).map Message.text
      = some (String.join env.chunks) := by
  simp only [handleSend]
  rw [if_neg (by simp [h1, h2])]
  by_cases himg : isImageReq (resolveText textOverride st.input) = true
  · rw [if_pos himg]
    cases henv : env.imageOutcome with
    | url u => exact absurd henv (h3 u)
    | empty => rw [textPath_getLast]; rfl
    | err => rw [textPath_getLast]; rfl
  · rw [if_neg himg]
    rw [textPath_getLast]
    rfl

theorem claim_C4_witness :
    jsTrim (resolveText none demoState.input) ≠ "" ∧
    demoEnv.chunks = ["Hel", "lo!"] ∧
    String.join ["Hel", "lo!"] = "Hello!" ∧
    ((handleSend demoState none demoClock demoEnv).state.messages.getLast?).map Message.text
      = some (String.join demoEnv.chunks) :=
  ⟨by decide, rfl, by decide,
   claim_C4 demoState none demoClock demoEnv (by decide) rfl
     (fun u hu => ImageOutcome.noConfusion hu)⟩

/-- The final message list never depends on whether the stream threw
after its chunks were delivered: the loop of lines 180-183 has already
committed each fragment, and the catch of lines 184-186 touches only
`leoState`. -/
theorem handleSend_messages_ignore_streamFails (st : AppState) (textOverride : Option String)
    (clock : Nat → Nat) (io : ImageOutcome) (cs : List String) (sf sf' : Bool) :
    (handleSend st textOverride clock
        { imageOutcome := io, chunks := cs, streamFails := sf }).state.messages
      = (handleSend st textOverride clock
          { imageOutcome := io, chunks := cs, streamFails := sf' }).state.messages := by
  simp only [handleSend]
  split
  · rfl
  · split
    · cases io with
      | url u => rfl
      | empty => rfl
      | err => rfl
    · rfl

/-- C7: when the chat stream throws partway (after delivering some
fragments), the emotion becomes `concerned`, `isThinking` is cleared,
and the message list is exactly what it would have been had the stream
ended normally after the same fragments — the partial text is retained,
nothing is rolled back. -/
theorem claim_C7 (st : AppState) (textOverride : Option String) (clock : Nat → Nat)
    (env : ChatEnv)
    (h1 : jsTrim (resolveText textOverride st.input) ≠ "")
    (h2 : st.leoState.isThinking = false)
    (h3 : ∀ u, env.imageOutcome ≠ ImageOutcome.url u)
    (hf : env.streamFails = true) :
    (handleSend st textOverride clock env).state.leoState.emotion = Emotion.concerned ∧
    (handleSend st textOverride clock env).state.leoState.isThinking = false ∧
    (handleSend st textOverride clock env).state.messages
      = (handleSend st textOverride clock
          { imageOutcome := env.imageOutcome, chunks := env.chunks,
            streamFails := false }).state.messages := by
  refine ⟨?_, ?_, ?_⟩
  · simp only [handleSend]
    rw [if_neg (by simp [h1, h2])]
    by_cases himg : isImageReq (resolveText textOverride st.input) = true
    · rw [if_pos himg]
      cases henv : env.imageOutcome with
      | url u => exact absurd henv (h3 u)
      | empty => simp [textPath, hf]
      | err => simp [textPath, hf]
    · rw [if_neg himg]
      simp [textPath, hf]
  · simp only [handleSend]
    rw [if_neg (by simp [h1, h2])]
    by_cases himg : isImageReq (resolveText textOverride st.input) = true
    · rw [if_pos himg]
      cases henv : env.imageOutcome with
      | url u => exact absurd henv (h3 u)
      | empty => simp [textPath, hf]
      | err => simp [textPath, hf]
    · rw [if_neg himg]
      simp [textPath, hf]
  · exact handleSend_messages_ignore_streamFails st textOverride clock
      env.imageOutcome env.chunks env.streamFails false

theorem claim_C7_witness :
    failEnv.streamFails = true ∧
    (handleSend demoState none demoClock failEnv).state.leoState.emotion
      = Emotion.concerned ∧
    (handleSend demoState none demoClock failEnv).state.leoState.isThinking = false :=
  ⟨rfl,
   (claim_C7 demoState none demoClock failEnv (by decide) rfl
      (fun u hu => ImageOutcome.noConfusion hu) rfl).1,
   (claim_C7 demoState none demoClock failEnv (by decide) rfl
      (fun u hu => ImageOutcome.noConfusion hu) rfl).2.1⟩

/-- C6: the image-intent classification and its fallback.  The keyword
test sends "generate a sunset" down the image path and
"what's the weather" down the text-only path; whenever the test matches,
`generateLeoImage` is attempted; whenever it does not, only the chat
stream is invoked; and when the image attempt returns nothing or
throws, the run silently falls back to the chat stream. -/
theorem claim_C6 (st : AppState) (textOverride : Option String) (clock : Nat → Nat)
    (env : ChatEnv)
    (h1 : jsTrim (resolveText textOverride st.input) ≠ "")
    (h2 : st.leoState.isThinking = false) :
    isImageReq "generate a sunset" = true ∧
    isImageReq "what\x27s the weather" = false ∧
    (isImageReq (resolveText textOverride st.input) = true →
      (handleSend st textOverride clock env).imageRequested = true) ∧
    (isImageReq (resolveText textOverride st.input) = false →
      (handleSend st textOverride clock env).imageRequested = false ∧
      (handleSend st textOverride clock env).chatRequest
        = some (resolveText textOverride st.input, historyOf st.messages)) ∧
    (isImageReq (resolveText textOverride st.input) = true →
      (env.imageOutcome = ImageOutcome.empty ∨ env.imageOutcome = ImageOutcome.err) →
      (handleSend st textOverride clock env).chatRequest
        = some (resolveText textOverride st.input, historyOf st.messages)) := by
  refine ⟨by decide, by decide, ?_, ?_, ?_⟩
  · intro himg
    simp only [handleSend]
    rw [if_neg (by simp [h1, h2]), if_pos himg]
    cases env.imageOutcome with
    | url u => rfl
    | empty => rfl
    | err => rfl
  · intro himg
    simp only [handleSend]
    rw [if_neg (by simp [h1, h2]), if_neg (by simp [himg])]
    exact ⟨rfl, rfl⟩
  · intro himg houtcome
    simp only [handleSend]
    rw [if_neg (by simp [h1, h2]), if_pos himg]
    rcases houtcome with ho | ho <;> rw [ho] <;> rfl

theorem claim_C6_witness :
    jsTrim (resolveText none imageState.input) ≠ "" ∧
    isImageReq (resolveText none imageState.input) = true ∧
    demoEnv.imageOutcome = ImageOutcome.err ∧
    (handleSend imageState none demoClock demoEnv).chatRequest
      = some (resolveText none imageState.input, historyOf imageState.messages) :=
  ⟨by decide, by decide, rfl,
   (claim_C6 imageState none demoClock demoEnv (by decide) rfl).2.2.2.2
     (by decide) (Or.inr rfl)⟩

/-- C9 is violated by the code: `Date.now().toString()` is used as the
message id both for the user message (line 143) and for the streaming
placeholder (line 167); on the plain text path these run in the same
millisecond, the ids collide, and the streaming update of line 182 then
overwrites the just-submitted user message's text as well.  Here the
clock returns 100 for every call; after streaming the single chunk
"Hi", the user message's text (submitted as "hello") has become "Hi". -/
theorem claim_C9_counterexample :
    (handleSend { messages := [], input := "hello", leoState := idleState } none
        (fun _ => 100)
        { imageOutcome := ImageOutcome.err, chunks := ["Hi"],
          streamFails := false }).state.messages.map (fun m => (m.role, m.text))
      = [(Role.user, "Hi"), (Role.leo, "Hi")] := by
  decide

/-- Reduction of the scheduling step (lines 104-112) when the decoded
frame is pending. -/
theorem audioStep_decoded_eq (s : AudioSchedState) (fid : Nat) (dur : ℚ) (now : ℚ)
    (hf : s.pending.find? (fun p => p.1 == fid) = some (fid, dur)) :
    audioStep s (AudioEvent.decoded fid now)
      = { nextStartTime := max s.nextStartTime now + dur,
          active := s.active ++
            [{ fid := fid, startTime := max s.nextStartTime now,
               stopTime := max s.nextStartTime now + dur }],
          pending := s.pending.filter (fun q => q.1 != fid),
          log := s.log ++
            [{ fid := fid, startTime := max s.nextStartTime now,
               stopTime := max s.nextStartTime now + dur }] } := by
  simp only [audioStep]
  rw [hf]

/-- C2: after any valid run of the live session, (a) the scheduled
playback intervals currently active are pairwise non-overlapping, (b) in
an interruption-free session no two intervals ever scheduled overlap,
and (c) whenever a pending frame is scheduled next, its start time is
exactly the later of the current output-clock reading and the previously
scheduled end time (`nextStartTime`), and the next-start-time counter
does not decrease across the scheduling step. -/
theorem claim_C2 (evs : List AudioEvent) (hok : ∀ e ∈ evs, evOk e) :
    ((evs.foldl audioStep audioInitState).active.Pairwise noOverlap) ∧
    (AudioEvent.interrupt ∉ evs →
      (evs.foldl audioStep audioInitState).log.Pairwise noOverlap) ∧
    (∀ fid dur now,
      (evs.foldl audioStep audioInitState).pending.find? (fun p => p.1 == fid)
        = some (fid, dur) →
      (audioStep (evs.foldl audioStep audioInitState) (AudioEvent.decoded fid now)).active
        = (evs.foldl audioStep audioInitState).active ++
          [{ fid := fid,
             startTime := max (evs.foldl audioStep audioInitState).nextStartTime now,
             stopTime := max (evs.foldl audioStep audioInitState).nextStartTime now + dur }] ∧
      (evs.foldl audioStep audioInitState).nextStartTime
        ≤ (audioStep (evs.foldl audioStep audioInitState)
            (AudioEvent.decoded fid now)).nextStartTime) := by
  have hga : goodAudio (evs.foldl audioStep audioInitState) :=
    goodAudio_run evs audioInitState goodAudio_init hok
  refine ⟨hga.2.1, ?_, ?_⟩
  · intro hni
    exact (goodLog_run evs audioInitState goodAudio_init
      ⟨fun a ha => absurd ha (List.not_mem_nil a), List.Pairwise.nil⟩ hok hni).2
  · intro fid dur now hf
    have hdur : 0 ≤ dur := hga.2.2 (fid, dur) (List.mem_of_find?_eq_some hf)
    rw [audioStep_decoded_eq (evs.foldl audioStep audioInitState) fid dur now hf]
    refine ⟨rfl, ?_⟩
    calc (evs.foldl audioStep audioInitState).nextStartTime
        ≤ max (evs.foldl audioStep audioInitState).nextStartTime now := le_max_left _ _
      _ ≤ max (evs.foldl audioStep audioInitState).nextStartTime now + dur :=
          le_add_of_nonneg_right hdur

theorem claim_C2_witness :
    (∀ e ∈ [AudioEvent.receive 1 2, AudioEvent.decoded 1 3,
            AudioEvent.receive 2 1], evOk e) ∧
    (([AudioEvent.receive 1 2, AudioEvent.decoded 1 3,
       AudioEvent.receive 2 1].foldl audioStep audioInitState).active.Pairwise noOverlap) :=
  ⟨by intro e he; fin_cases he <;> simp [evOk],
   (claim_C2 [AudioEvent.receive 1 2, AudioEvent.decoded 1 3, AudioEvent.receive 2 1]
      (by intro e he; fin_cases he <;> simp [evOk])).1⟩

/-- C3 is violated by the code: `onmessage` is an `async` callback that
awaits `decodeAudioBuffer` (line 102) between receiving a frame and
scheduling it (lines 104-112), and the interruption branch (lines 90-94)
does not cancel in-flight decodes.  A frame received — and whose
scheduling thus began — before the interruption survives the reset: with
frame 7 (duration 2) received, then an interruption (active sources
cleared, clock reset to 0), then frame 7's decode resolving at output
clock 5, the frame is scheduled at time 5 and is active afterwards. -/
theorem claim_C3_counterexample :
    (([AudioEvent.receive 7 2, AudioEvent.interrupt].foldl audioStep audioInitState).active
        = [] ∧
     ([AudioEvent.receive 7 2, AudioEvent.interrupt].foldl
        audioStep audioInitState).nextStartTime = 0) ∧
    ([AudioEvent.receive 7 2, AudioEvent.interrupt,
      AudioEvent.decoded 7 5].foldl audioStep audioInitState).active
      = [{ fid := 7, startTime := 5, stopTime := 7 }] := by
  refine ⟨⟨rfl, rfl⟩, ?_⟩
  simp only [List.foldl, audioStep, audioInitState, List.find?]
  norm_num

end LeoApp
